import Mathlib

/-!
Verification of the CongressTrades return/Sharpe analysis pipeline.

This file gives a shallow embedding of the analysis and persistence layer of
the repository (`src/analysis.py` and `src/db.py`) and proves the stated
properties of the specification against it.

Modelling conventions:
* Trading dates are encoded as `Nat` day ordinals.  The source keys prices and
  dates either by pandas timestamps or by ISO `YYYY-MM-DD` strings, whose
  lexicographic order agrees with chronological order, so a strictly monotone
  encoding into `Nat` preserves every comparison the code performs.
  `timedelta(days=30)` becomes `+ 30` on day ordinals.
* Prices and returns are `ℚ` (the Python floats, modelled exactly); the Sharpe
  ratio needs a square root and therefore lives in `ℝ`.
* SQLite tables are lists of row structures; each SQL statement of `db.py`
  becomes a list transformation with the same conflict semantics.
-/

namespace CongressTrades

/-- A daily closing price point for one ticker, a row of the `price_cache`
table restricted to one ticker and also one entry of a pandas price series
(`analysis.get_cached_price_df` / `fetch_and_cache_prices`). -/
structure PricePoint where
  pdate : Nat
  close : ℚ
deriving DecidableEq, Repr

/-- The values computed for one trade by
`analysis.calculate_and_store_returns` (lines 154-190): the entry point, the
optional 30-day forward return with its realization date, and the
mark-to-now ("current") return. -/
structure TradeCalc where
  entry_date : Nat
  entry_price : ℚ
  return_30d : Option ℚ
  return_30d_date : Option Nat
  return_current : Option ℚ
deriving DecidableEq, Repr

/-- Per-trade return computation of `analysis.calculate_and_store_returns`
(lines 154-190).  Mirrors the source line by line:
`valid_dates = available_dates[available_dates >= trade_date]`; if empty the
trade is skipped (`none`); entry at `valid_dates[0]`; the 30-day target is
`entry_date + timedelta(days=30)` and the exit the first date on or after it,
else the 30-day fields stay null; the current return uses the last series
point (`price_series.iloc[-1]`); for a `sale` both returns are negated.
The series is assumed deduplicated by date (the input contract of the
component), so the positional lookup `price_series[entry_date]` is the
filtered head itself. -/
def computeTradeReturn (series : List PricePoint) (tradeDate : Nat)
    (txType : String) : Option TradeCalc :=
  match (series.filter (fun p => tradeDate ≤ p.pdate)).head? with
  | none => none
  | some entryPt =>
    let entryPrice := entryPt.close
    let exit30 := (series.filter (fun p => entryPt.pdate + 30 ≤ p.pdate)).head?
    let r30 : Option ℚ := exit30.map (fun x => (x.close - entryPrice) / entryPrice)
    let r30date : Option Nat := exit30.map (fun x => x.pdate)
    let rcur : Option ℚ :=
      series.getLast?.map (fun x => (x.close - entryPrice) / entryPrice)
    if txType == "sale" then
      some ⟨entryPt.pdate, entryPrice, r30.map (fun r => -r), r30date,
            rcur.map (fun r => -r)⟩
    else
      some ⟨entryPt.pdate, entryPrice, r30, r30date, rcur⟩

theorem filter_head?_eq_find? (p : α → Bool) (l : List α) :
    (l.filter p).head? = l.find? p := by
  induction l with
  | nil => rfl
  | cons a l ih =>
    by_cases h : p a <;> simp [List.filter_cons, List.find?_cons, h, ih]

/-- The example series of the specification: ticker ABC with closes 100 on
2024-01-02, 110 on 2024-02-01 and 130 on 2024-06-01, encoded as day-of-2024
ordinals (2, 32 and 153; note 32 = 2 + 30, so 2024-02-01 is exactly the
30-day target of a 2024-01-02 entry). -/
def exSeries : List PricePoint := [⟨2, 100⟩, ⟨32, 110⟩, ⟨153, 130⟩]

/-- C1: for every trade whose ticker has a price series containing at least
one date on or after the transaction date, the computed record has entry
price at the first series date ≥ the transaction date, 30-day return
`(price at first date ≥ entry + 30 − entry)/entry` (null when no such date
exists) and current return `(price at last series date − entry)/entry`. -/
theorem c1_return_computation (series : List PricePoint) (d : Nat)
    (h : ∃ q ∈ series, d ≤ q.pdate) :
    ∃ e, series.find? (fun q => d ≤ q.pdate) = some e ∧
      computeTradeReturn series d "purchase" =
        some { entry_date := e.pdate
               entry_price := e.close
               return_30d := (series.find? (fun q => e.pdate + 30 ≤ q.pdate)).map
                 (fun x => (x.close - e.close) / e.close)
               return_30d_date :=
                 (series.find? (fun q => e.pdate + 30 ≤ q.pdate)).map (fun x => x.pdate)
               return_current :=
                 series.getLast?.map (fun x => (x.close - e.close) / e.close) } := by
  have hsome : (series.find? (fun q => d ≤ q.pdate)).isSome := by
    rw [List.find?_isSome]
    obtain ⟨q, hq, hle⟩ := h
    exact ⟨q, hq, by simpa using hle⟩
  obtain ⟨e, he⟩ := Option.isSome_iff_exists.mp hsome
  refine ⟨e, he, ?_⟩
  unfold computeTradeReturn
  rw [filter_head?_eq_find?, he]
  dsimp only
  rw [filter_head?_eq_find?]
  rfl

/-- C1 witness: the specification's end-to-end example.  A purchase of ABC
dated 2024-01-02 (day 2) against `exSeries` enters at 100 on day 2, realizes
the 30-day return 0.10 at 110 on day 32 (= 2024-02-01) and the current
return 0.30 at the last point 130. -/
theorem c1_return_computation_witness :
    computeTradeReturn exSeries 2 "purchase" =
      some ⟨2, 100, some (1/10), some 32, some (3/10)⟩ := by
  obtain ⟨e, he, hc⟩ :=
    c1_return_computation exSeries 2 ⟨⟨2, 100⟩, by decide, by decide⟩
  have hfind : exSeries.find? (fun q => 2 ≤ q.pdate) = some ⟨2, 100⟩ := by decide
  rw [hfind] at he
  cases he
  rw [hc]
  rw [show exSeries.find?
        (fun q => (⟨2, 100⟩ : PricePoint).pdate + 30 ≤ q.pdate) = some ⟨32, 110⟩
      from by decide]
  rw [show exSeries.getLast? = some ⟨153, 130⟩ from by decide]
  norm_num

/-- C4: with the same series and transaction date (hence identical entry and
exit prices), the record computed for a `sale` is the `purchase` record with
both the 30-day and the current return negated, and the sign flip applies
exactly to `sale`: every other transaction type computes the same record as
a `purchase` (lines 185-190 of `analysis.py`). -/
theorem c4_sale_sign_flip (series : List PricePoint) (d : Nat) :
    computeTradeReturn series d "sale" =
      (computeTradeReturn series d "purchase").map
        (fun c => { c with return_30d := c.return_30d.map (fun r => -r)
                           return_current := c.return_current.map (fun r => -r) }) ∧
    ∀ txType : String, txType ≠ "sale" →
      computeTradeReturn series d txType = computeTradeReturn series d "purchase" := by
  constructor
  · unfold computeTradeReturn
    cases (series.filter (fun p => d ≤ p.pdate)).head? <;> simp
  · intro txType htx
    unfold computeTradeReturn
    cases (series.filter (fun p => d ≤ p.pdate)).head? <;> simp [htx]

/-- C4 witness: on the example series, the sale of the same shape as the
purchase stores −0.10 and −0.30, and a non-sale type (here `exchange`, the
only other transaction type of the data model) is not flipped. -/
theorem c4_sale_sign_flip_witness :
    computeTradeReturn exSeries 2 "sale" =
      some ⟨2, 100, some (-(1/10)), some 32, some (-(3/10))⟩ ∧
    computeTradeReturn exSeries 2 "exchange" =
      computeTradeReturn exSeries 2 "purchase" := by
  obtain ⟨hflip, hoth⟩ := c4_sale_sign_flip exSeries 2
  refine ⟨?_, hoth "exchange" (by decide)⟩
  rw [hflip]
  rw [show computeTradeReturn exSeries 2 "purchase" =
        some ⟨2, 100, some (1/10), some 32, some (3/10)⟩
      from by norm_num [computeTradeReturn, exSeries, List.filter] <;> decide]
  norm_num

/-- One row of the `trade_returns` table (schema in `db.py` lines 84-95, with
`UNIQUE(trade_id)`).  `updated_at` is the `CURRENT_TIMESTAMP` of the last
write. -/
structure TRRow where
  trade_id : Nat
  entry_date : Nat
  entry_price : ℚ
  return_30d : Option ℚ
  return_30d_date : Option Nat
  return_current : Option ℚ
  return_current_date : Option Nat
  updated_at : Nat
deriving DecidableEq, Repr

/-- The column values supplied by one call of `db.upsert_trade_return`. -/
structure TRIn where
  trade_id : Nat
  entry_date : Nat
  entry_price : ℚ
  return_30d : Option ℚ
  return_30d_date : Option Nat
  return_current : Option ℚ
  return_current_date : Option Nat
deriving DecidableEq, Repr

/-- SQL `COALESCE(a, b)`: `a` unless `a` is null, else `b`. -/
def coalesce (a b : Option α) : Option α :=
  match a with
  | some v => some v
  | none => b

/-- The `DO UPDATE SET` clause of `db.upsert_trade_return`: on conflict the
30-day fields take `COALESCE(excluded, stored)`, the current fields take the
incoming values unconditionally, `updated_at` is refreshed, and the entry
columns (absent from the update list) keep their stored values. -/
def mergedRow (r : TRRow) (x : TRIn) (now : Nat) : TRRow :=
  { r with
    return_30d := coalesce x.return_30d r.return_30d
    return_30d_date := coalesce x.return_30d_date r.return_30d_date
    return_current := x.return_current
    return_current_date := x.return_current_date
    updated_at := now }

/-- The row inserted by `db.upsert_trade_return` when no row for
`x.trade_id` exists: all supplied values plus the write timestamp. -/
def freshRow (x : TRIn) (now : Nat) : TRRow :=
  ⟨x.trade_id, x.entry_date, x.entry_price, x.return_30d, x.return_30d_date,
   x.return_current, x.return_current_date, now⟩

/-- `db.upsert_trade_return` (lines 420-448): `INSERT ... ON CONFLICT(trade_id)
DO UPDATE SET return_30d = COALESCE(excluded.return_30d,
trade_returns.return_30d), return_30d_date = COALESCE(excluded.return_30d_date,
trade_returns.return_30d_date), return_current = excluded.return_current,
return_current_date = excluded.return_current_date,
updated_at = CURRENT_TIMESTAMP`. -/
def upsert_trade_return (db : List TRRow) (x : TRIn) (now : Nat) : List TRRow :=
  if db.any (fun r => r.trade_id == x.trade_id) then
    db.map (fun r => if r.trade_id == x.trade_id then mergedRow r x now else r)
  else
    db ++ [freshRow x now]

/-- `db.get_trade_return`: the stored record for a trade identifier. -/
def get_trade_return (db : List TRRow) (tid : Nat) : Option TRRow :=
  db.find? (fun r => r.trade_id == tid)

theorem comp_trade_id_eq (x : TRIn) (now : Nat) (tid : Nat) :
    ((fun r : TRRow => r.trade_id == tid) ∘
      (fun r => if r.trade_id == x.trade_id then mergedRow r x now else r)) =
    (fun r : TRRow => r.trade_id == tid) := by
  funext s
  by_cases hs : (s.trade_id == x.trade_id) = true
  · simp only [Function.comp_apply, if_pos hs]
    rfl
  · simp only [Function.comp_apply, if_neg hs]

/-- The record stored for `x.trade_id` after an upsert: the merge of the
previous record when one existed, the fresh row otherwise. -/
theorem get_upsert_eq (db : List TRRow) (x : TRIn) (now : Nat) :
    get_trade_return (upsert_trade_return db x now) x.trade_id =
      some (match get_trade_return db x.trade_id with
            | some r => mergedRow r x now
            | none => freshRow x now) := by
  unfold get_trade_return upsert_trade_return
  by_cases hany : db.any (fun r => r.trade_id == x.trade_id)
  · rw [if_pos hany]
    obtain ⟨r, hr, hp⟩ := List.any_eq_true.mp hany
    have hsome : (db.find? (fun r => r.trade_id == x.trade_id)).isSome := by
      rw [List.find?_isSome]; exact ⟨r, hr, hp⟩
    obtain ⟨r0, hr0⟩ := Option.isSome_iff_exists.mp hsome
    rw [List.find?_map, comp_trade_id_eq, hr0]
    have hpr0 := List.find?_some hr0
    simp [hpr0]
    intro h
    exact absurd (by simpa using hpr0) h
  · rw [if_neg hany]
    have hnone : db.find? (fun r => r.trade_id == x.trade_id) = none := by
      rw [List.find?_eq_none]
      intro s hs hps
      exact hany (List.any_eq_true.mpr ⟨s, hs, hps⟩)
    rw [List.find?_append, hnone]
    simp [freshRow]

/-- The 30-day return stored after an upsert carrying a non-null 30-day
return is that value, whatever was stored before. -/
theorem stored30_after_upsert (db : List TRRow) (x : TRIn) (now : Nat) (v : ℚ)
    (hx : x.return_30d = some v) :
    (get_trade_return (upsert_trade_return db x now) x.trade_id).map
      (fun r => r.return_30d) = some (some v) := by
  rw [get_upsert_eq]
  cases h : get_trade_return db x.trade_id <;>
    simp [mergedRow, freshRow, coalesce, hx]

/-- C3: the trade-return upsert keyed by trade identifier keeps at most one
record per trade; on an existing record the 30-day fields follow
keep-if-incoming-null merge semantics while the current fields are
unconditionally overwritten; upserting twice with the same non-null 30-day
value leaves the stored value unchanged, and upserting a null 30-day value
after a non-null one never erases it. -/
theorem c3_upsert_trade_return (db : List TRRow) (x : TRIn) (now : Nat) :
    (∀ tid : Nat,
        db.countP (fun r => r.trade_id == tid) ≤ 1 →
        (upsert_trade_return db x now).countP (fun r => r.trade_id == tid) ≤ 1) ∧
    (∀ r, get_trade_return db x.trade_id = some r →
        get_trade_return (upsert_trade_return db x now) x.trade_id =
          some (mergedRow r x now)) ∧
    (∀ v, x.return_30d = some v → ∀ now2 : Nat,
        (get_trade_return (upsert_trade_return db x now) x.trade_id).map
          (fun r => r.return_30d) = some (some v) ∧
        (get_trade_return
            (upsert_trade_return (upsert_trade_return db x now) x now2)
            x.trade_id).map (fun r => r.return_30d) = some (some v)) ∧
    (∀ (y : TRIn) (v : ℚ), y.trade_id = x.trade_id → x.return_30d = some v →
        y.return_30d = none → ∀ now2 : Nat,
        (get_trade_return
            (upsert_trade_return (upsert_trade_return db x now) y now2)
            x.trade_id).map (fun r => r.return_30d) = some (some v)) ∧
    (∀ r2, get_trade_return (upsert_trade_return db x now) x.trade_id = some r2 →
        r2.return_current = x.return_current ∧
        r2.return_current_date = x.return_current_date) := by
  refine ⟨?_, ?_, ?_, ?_, ?_⟩
  · intro tid hbound
    unfold upsert_trade_return
    by_cases hany : db.any (fun r => r.trade_id == x.trade_id)
    · rw [if_pos hany, List.countP_map, comp_trade_id_eq]
      exact hbound
    · rw [if_neg hany, List.countP_append]
      by_cases htid : tid = x.trade_id
      · have hzero : db.countP (fun r => r.trade_id == tid) = 0 := by
          rw [List.countP_eq_zero]
          intro s hs hps
          refine hany (List.any_eq_true.mpr ⟨s, hs, ?_⟩)
          rw [← htid]
          exact hps
        have hle : ([freshRow x now]).countP (fun r => r.trade_id == tid) ≤ 1 :=
          le_trans (List.countP_le_length _) (by simp)
        rw [hzero]
        simpa using hle
      · have hzero2 : ([freshRow x now]).countP (fun r => r.trade_id == tid) = 0 := by
          rw [List.countP_eq_zero]
          intro s hs
          have hs2 : s = freshRow x now := by simpa using hs
          subst hs2
          simp [freshRow]
          exact fun h => htid h.symm
        rw [hzero2]
        simpa using hbound
  · intro r hr
    rw [get_upsert_eq, hr]
  · intro v hv now2
    refine ⟨stored30_after_upsert db x now v hv, ?_⟩
    exact stored30_after_upsert _ x now2 v hv
  · intro y v hyid hx hy now2
    obtain ⟨r1, hr1, h30⟩ :
        ∃ r1, get_trade_return (upsert_trade_return db x now) x.trade_id = some r1 ∧
          r1.return_30d = some v := by
      have := stored30_after_upsert db x now v hx
      cases h : get_trade_return (upsert_trade_return db x now) x.trade_id with
      | none => rw [h] at this; simp at this
      | some r1 =>
        rw [h] at this
        exact ⟨r1, rfl, by simpa using this⟩
    have := get_upsert_eq (upsert_trade_return db x now) y now2
    rw [hyid, hr1] at this
    rw [this]
    simp [mergedRow, coalesce, hy, h30]
  · intro r2 hr2
    rw [get_upsert_eq] at hr2
    have h2 : r2 = (match get_trade_return db x.trade_id with
        | some r => mergedRow r x now
        | none => freshRow x now) := (Option.some.inj hr2).symm
    subst h2
    cases h : get_trade_return db x.trade_id <;> simp [mergedRow, freshRow]

/-- C3 witness: on an initially empty store, upserting a record for trade 7
with 30-day return 3 twice keeps the stored value 3, a subsequent upsert with
a null 30-day value does not erase it, and the store keeps at most one row
for the trade. -/
theorem c3_upsert_trade_return_witness :
    ((upsert_trade_return [] ⟨7, 2, 100, some 3, some 32, some 4, some 200⟩ 1).countP
        (fun r => r.trade_id == 7) ≤ 1) ∧
    ((get_trade_return
        (upsert_trade_return
          (upsert_trade_return [] ⟨7, 2, 100, some 3, some 32, some 4, some 200⟩ 1)
          ⟨7, 2, 100, some 3, some 32, some 4, some 200⟩ 2)
        7).map (fun r => r.return_30d) = some (some 3)) ∧
    ((get_trade_return
        (upsert_trade_return
          (upsert_trade_return [] ⟨7, 2, 100, some 3, some 32, some 4, some 200⟩ 1)
          ⟨7, 2, 100, none, none, some 5, some 300⟩ 2)
        7).map (fun r => r.return_30d) = some (some 3)) := by
  refine ⟨?_, ?_, ?_⟩
  · exact (c3_upsert_trade_return [] ⟨7, 2, 100, some 3, some 32, some 4, some 200⟩ 1).1
      7 (by decide)
  · exact ((c3_upsert_trade_return [] ⟨7, 2, 100, some 3, some 32, some 4, some 200⟩ 1).2.2.1
      3 rfl 2).2
  · exact (c3_upsert_trade_return [] ⟨7, 2, 100, some 3, some 32, some 4, some 200⟩ 1).2.2.2.1
      ⟨7, 2, 100, none, none, some 5, some 300⟩ 3 rfl rfl rfl 2

/-- C10: an upsert on a trade identifier that already has a stored record
leaves the stored `entry_date` and `entry_price` unchanged even when the
call supplies different values; the updated record differs from the old one
only in the return fields, their dates, and `updated_at`. -/
theorem c10_upsert_frame (db : List TRRow) (x : TRIn) (now : Nat) (r : TRRow)
    (h : get_trade_return db x.trade_id = some r) :
    ∃ r2, get_trade_return (upsert_trade_return db x now) x.trade_id = some r2 ∧
      r2.entry_date = r.entry_date ∧
      r2.entry_price = r.entry_price ∧
      r2.trade_id = r.trade_id ∧
      r2 = { r with
             return_30d := coalesce x.return_30d r.return_30d
             return_30d_date := coalesce x.return_30d_date r.return_30d_date
             return_current := x.return_current
             return_current_date := x.return_current_date
             updated_at := now } := by
  refine ⟨mergedRow r x now, ?_, rfl, rfl, rfl, rfl⟩
  rw [get_upsert_eq, h]

/-- C10 witness: upserting over an existing record for trade 7 with entry
date 5 and entry price 99 supplied (differing from the stored 2 and 100)
leaves entry date 2 and entry price 100 stored. -/
theorem c10_upsert_frame_witness :
    ∃ r2, get_trade_return
        (upsert_trade_return [⟨7, 2, 100, some 3, some 32, some 4, some 200, 1⟩]
          ⟨7, 5, 99, none, none, some 5, some 300⟩ 9)
        7 = some r2 ∧
      r2.entry_date = 2 ∧ r2.entry_price = 100 := by
  obtain ⟨r2, hget, hdate, hprice, -, -⟩ :=
    c10_upsert_frame [⟨7, 2, 100, some 3, some 32, some 4, some 200, 1⟩]
      ⟨7, 5, 99, none, none, some 5, some 300⟩ 9
      ⟨7, 2, 100, some 3, some 32, some 4, some 200, 1⟩ (by decide)
  exact ⟨r2, hget, hdate, hprice⟩

/-- One row of the `sharpe_snapshots` table (schema in `db.py` lines 98-115,
with `UNIQUE(member_id, snapshot_date)`).  The numeric type is a parameter:
the aggregator writes real-valued statistics, while ordering queries are
stated over `ℚ` (exact stand-in for the SQLite `REAL` column, which is
totally ordered the same way). -/
structure SnapRow (α : Type) where
  member_id : Nat
  snapshot_date : Nat
  sharpe_30d : Option α
  sharpe_current : Option α
  num_trades : Nat
  mean_return_30d : Option α
  std_return_30d : Option α
  mean_return_current : Option α
  std_return_current : Option α
  win_rate_30d : Option α
  win_rate_current : Option α
  total_return_30d : Option α
  total_return_current : Option α
deriving DecidableEq, Repr

/-- The key predicate of the snapshot upsert: same member and date. -/
def snapKeyMatch (r s : SnapRow α) : Bool :=
  r.member_id == s.member_id && r.snapshot_date == s.snapshot_date

/-- `db.save_sharpe_snapshot` (lines 504-546): `INSERT ... ON
CONFLICT(member_id, snapshot_date) DO UPDATE SET` listing every statistic
column, so a conflicting row is replaced by the incoming values wholesale;
otherwise the row is appended. -/
def save_sharpe_snapshot (db : List (SnapRow α)) (x : SnapRow α) :
    List (SnapRow α) :=
  if db.any (fun r => snapKeyMatch r x) then
    db.map (fun r => if snapKeyMatch r x then x else r)
  else
    db ++ [x]

/-- C5: the snapshot store keeps at most one row per (member, snapshot date);
saving for an existing (member, date) pair overwrites every statistic field
of that row (the stored row becomes exactly the incoming row) without
creating a duplicate, and saving with a new key appends the new row,
leaving every row of any other key (in particular of earlier dates)
unchanged. -/
theorem snap_comp_eq (x : SnapRow α) (p : SnapRow α → Bool)
    (hp : ∀ r, snapKeyMatch r x = true → p r = p x) :
    (p ∘ (fun r => if snapKeyMatch r x then x else r)) = p := by
  funext s
  by_cases hs : snapKeyMatch s x = true
  · simp only [Function.comp_apply, if_pos hs]
    exact (hp s hs).symm
  · simp only [Function.comp_apply, if_neg hs]

theorem snapKeyMatch_self (x : SnapRow α) : snapKeyMatch x x = true := by
  simp [snapKeyMatch]

theorem snapKeyMatch_key {r x : SnapRow α} (h : snapKeyMatch r x = true) :
    r.member_id = x.member_id ∧ r.snapshot_date = x.snapshot_date := by
  simpa [snapKeyMatch] using h

theorem c5_snapshot_upsert (db : List (SnapRow α)) (x : SnapRow α) :
    (∀ m d : Nat,
        db.countP (fun r => r.member_id == m && r.snapshot_date == d) ≤ 1 →
        (save_sharpe_snapshot db x).countP
          (fun r => r.member_id == m && r.snapshot_date == d) ≤ 1) ∧
    ((∃ r ∈ db, snapKeyMatch r x) →
        (save_sharpe_snapshot db x).length = db.length ∧
        (save_sharpe_snapshot db x).find? (fun r => snapKeyMatch r x) = some x) ∧
    ((¬ ∃ r ∈ db, snapKeyMatch r x) →
        save_sharpe_snapshot db x = db ++ [x]) ∧
    (∀ r ∈ db, snapKeyMatch r x = false → r ∈ save_sharpe_snapshot db x) := by
  have hkeyp : ∀ m d : Nat, ∀ r : SnapRow α, snapKeyMatch r x = true →
      (r.member_id == m && r.snapshot_date == d) =
      (x.member_id == m && x.snapshot_date == d) := by
    intro m d r h
    obtain ⟨h1, h2⟩ := snapKeyMatch_key h
    rw [h1, h2]
  refine ⟨?_, ?_, ?_, ?_⟩
  · intro m d hbound
    unfold save_sharpe_snapshot
    by_cases hany : db.any (fun r => snapKeyMatch r x)
    · rw [if_pos hany, List.countP_map,
         snap_comp_eq x (fun r => r.member_id == m && r.snapshot_date == d) (hkeyp m d)]
      exact hbound
    · rw [if_neg hany, List.countP_append]
      by_cases hk : x.member_id = m ∧ x.snapshot_date = d
      · have hzero : db.countP (fun r => r.member_id == m && r.snapshot_date == d) = 0 := by
          rw [List.countP_eq_zero]
          intro s hs hps
          refine hany (List.any_eq_true.mpr ⟨s, hs, ?_⟩)
          have hps2 : s.member_id = m ∧ s.snapshot_date = d := by simpa using hps
          simp [snapKeyMatch, hps2.1, hps2.2, hk.1, hk.2]
        have hle : ([x]).countP (fun r => r.member_id == m && r.snapshot_date == d) ≤ 1 :=
          le_trans (List.countP_le_length _) (by simp)
        rw [hzero]
        simpa using hle
      · have hzero2 : ([x]).countP (fun r => r.member_id == m && r.snapshot_date == d) = 0 := by
          rw [List.countP_eq_zero]
          intro s hs
          have hs2 : s = x := by simpa using hs
          subst hs2
          intro hps
          exact hk (by simpa using hps)
        rw [hzero2]
        simpa using hbound
  · intro hex
    obtain ⟨r, hr, hkr⟩ := hex
    have hany : db.any (fun r => snapKeyMatch r x) = true :=
      List.any_eq_true.mpr ⟨r, hr, hkr⟩
    unfold save_sharpe_snapshot
    rw [if_pos hany]
    refine ⟨List.length_map db _, ?_⟩
    have hcomp : ((fun r : SnapRow α => snapKeyMatch r x) ∘
        (fun r => if snapKeyMatch r x then x else r)) =
        (fun r : SnapRow α => snapKeyMatch r x) := by
      refine snap_comp_eq x _ ?_
      intro r h
      rw [h, snapKeyMatch_self]
    have hsome : (db.find? (fun r => snapKeyMatch r x)).isSome := by
      rw [List.find?_isSome]; exact ⟨r, hr, hkr⟩
    obtain ⟨r0, hr0⟩ := Option.isSome_iff_exists.mp hsome
    rw [List.find?_map, hcomp, hr0]
    have hpr0 := List.find?_some hr0
    simp only [Option.map_some']
    rw [if_pos hpr0]
  · intro hnex
    have hany : ¬ (db.any (fun r => snapKeyMatch r x) = true) := by
      rw [List.any_eq_true]
      simpa using hnex
    unfold save_sharpe_snapshot
    rw [if_neg hany]
  · intro r hr hkey
    unfold save_sharpe_snapshot
    by_cases hany : db.any (fun r => snapKeyMatch r x)
    · rw [if_pos hany]
      have : (if snapKeyMatch r x then x else r) ∈
          db.map (fun r => if snapKeyMatch r x then x else r) :=
        List.mem_map_of_mem _ hr
      rwa [if_neg (by rw [hkey]; exact Bool.false_ne_true)] at this
    · rw [if_neg hany]
      exact List.mem_append_left _ hr

/-- C5 witness: overwriting member 1's snapshot of date 10 replaces every
field and leaves lengths and the key bound intact, while a new date appends
without touching the old date-9 row, with all concrete values checked. -/
theorem c5_snapshot_upsert_witness :
    (([⟨1, 10, some 2, none, 3, none, none, none, none, none, none, none, none⟩] :
        List (SnapRow ℚ)).countP (fun r => r.member_id == 1 && r.snapshot_date == 10) ≤ 1 →
      (save_sharpe_snapshot
        [⟨1, 10, some 2, none, 3, none, none, none, none, none, none, none, none⟩]
        (⟨1, 10, some 7, some 8, 4, some 9, none, none, none, none, none, none, none⟩ :
          SnapRow ℚ)).countP (fun r => r.member_id == 1 && r.snapshot_date == 10) ≤ 1) ∧
    (save_sharpe_snapshot
        [⟨1, 10, some 2, none, 3, none, none, none, none, none, none, none, none⟩]
        (⟨1, 10, some 7, some 8, 4, some 9, none, none, none, none, none, none, none⟩ :
          SnapRow ℚ)).find? (fun r => snapKeyMatch r
            ⟨1, 10, some 7, some 8, 4, some 9, none, none, none, none, none, none, none⟩) =
        some ⟨1, 10, some 7, some 8, 4, some 9, none, none, none, none, none, none, none⟩ ∧
    save_sharpe_snapshot
        [⟨1, 9, some 2, none, 3, none, none, none, none, none, none, none, none⟩]
        (⟨1, 10, some 7, some 8, 4, some 9, none, none, none, none, none, none, none⟩ :
          SnapRow ℚ) =
      [⟨1, 9, some 2, none, 3, none, none, none, none, none, none, none, none⟩,
       ⟨1, 10, some 7, some 8, 4, some 9, none, none, none, none, none, none, none⟩] := by
  refine ⟨?_, ?_, ?_⟩
  · intro h
    exact (c5_snapshot_upsert
      [⟨1, 10, some 2, none, 3, none, none, none, none, none, none, none, none⟩]
      ⟨1, 10, some 7, some 8, 4, some 9, none, none, none, none, none, none, none⟩).1 1 10 h
  · exact ((c5_snapshot_upsert
      [⟨1, 10, some 2, none, 3, none, none, none, none, none, none, none, none⟩]
      ⟨1, 10, some 7, some 8, 4, some 9, none, none, none, none, none, none, none⟩).2.1
      ⟨⟨1, 10, some 2, none, 3, none, none, none, none, none, none, none, none⟩,
        by decide, by decide⟩).2
  · exact (c5_snapshot_upsert
      [⟨1, 9, some 2, none, 3, none, none, none, none, none, none, none, none⟩]
      ⟨1, 10, some 7, some 8, 4, some 9, none, none, none, none, none, none, none⟩).2.2.1
      (by decide)

/-- SQLite ordering for `ORDER BY sharpe_30d DESC` on a nullable column:
`a` may come before `b` iff `b` is NULL or both are non-NULL with
`a ≥ b`.  SQLite treats NULL as smaller than every value, so under `DESC`
NULL rows sort after all non-NULL rows. -/
def sqliteDescLeB (a b : Option ℚ) : Bool :=
  match a, b with
  | _, none => true
  | none, some _ => false
  | some u, some v => v ≤ u

def sqliteDescLe (a b : Option ℚ) : Prop := sqliteDescLeB a b = true

instance : DecidableRel sqliteDescLe := fun a b =>
  inferInstanceAs (Decidable (sqliteDescLeB a b = true))

/-- Row ordering used by `db.get_latest_sharpe_all_members`. -/
def snapDescLe (a b : SnapRow ℚ) : Prop := sqliteDescLe a.sharpe_30d b.sharpe_30d

instance : DecidableRel snapDescLe := fun a b =>
  inferInstanceAs (Decidable (sqliteDescLe a.sharpe_30d b.sharpe_30d))

theorem sqliteDescLe_total (a b : Option ℚ) :
    sqliteDescLe a b ∨ sqliteDescLe b a := by
  cases a <;> cases b <;> simp [sqliteDescLe, sqliteDescLeB]
  exact le_total _ _

theorem sqliteDescLe_trans {a b c : Option ℚ} (hab : sqliteDescLe a b)
    (hbc : sqliteDescLe b c) : sqliteDescLe a c := by
  cases a <;> cases b <;> cases c <;> simp_all [sqliteDescLe, sqliteDescLeB]
  exact le_trans hbc hab

instance : IsTotal (SnapRow ℚ) snapDescLe :=
  ⟨fun a b => sqliteDescLe_total a.sharpe_30d b.sharpe_30d⟩

instance : IsTrans (SnapRow ℚ) snapDescLe :=
  ⟨fun _ _ _ hab hbc => sqliteDescLe_trans hab hbc⟩

/-- `db.get_latest_sharpe_all_members` (lines 564-583): `WHERE snapshot_date
= (SELECT MAX(snapshot_date) FROM sharpe_snapshots) ORDER BY sharpe_30d
DESC`.  The join with `members` only adds display columns under referential
integrity and is not modelled.  SQL imposes no order among ties, so any
sorted permutation is a faithful model; a stable insertion sort is used. -/
def get_latest_sharpe_all_members (db : List (SnapRow ℚ)) : List (SnapRow ℚ) :=
  match (db.map (fun r => r.snapshot_date)).max? with
  | none => []
  | some dmax =>
    List.insertionSort snapDescLe (db.filter (fun r => r.snapshot_date == dmax))

/-- C6: the latest-all-members query returns exactly the rows whose snapshot
date is the maximum date in the store (as a permutation of that filter), in
an order where each row may precede the next only when its `sharpe_30d` is
non-null and ≥ the next, or the next is null — i.e. descending `sharpe_30d`
with all null rows after all non-null rows. -/
theorem c6_latest_ranking (db : List (SnapRow ℚ)) :
    (∀ row ∈ get_latest_sharpe_all_members db,
        (db.map (fun r => r.snapshot_date)).max? = some row.snapshot_date) ∧
    (∀ dmax : Nat, (db.map (fun r => r.snapshot_date)).max? = some dmax →
        (get_latest_sharpe_all_members db).Perm
          (db.filter (fun r => r.snapshot_date == dmax))) ∧
    (get_latest_sharpe_all_members db).Sorted snapDescLe := by
  refine ⟨?_, ?_, ?_⟩
  · intro row hrow
    unfold get_latest_sharpe_all_members at hrow
    cases hmax : (db.map (fun r => r.snapshot_date)).max? with
    | none => rw [hmax] at hrow; simp at hrow
    | some dmax =>
      rw [hmax] at hrow
      have hmem : row ∈ db.filter (fun r => r.snapshot_date == dmax) :=
        (List.perm_insertionSort snapDescLe _).mem_iff.mp hrow
      have hdate : row.snapshot_date = dmax := by
        have := List.of_mem_filter hmem
        simpa using this
      rw [hdate]
  · intro dmax hmax
    unfold get_latest_sharpe_all_members
    rw [hmax]
    exact List.perm_insertionSort snapDescLe _
  · unfold get_latest_sharpe_all_members
    cases hmax : (db.map (fun r => r.snapshot_date)).max? with
    | none => exact List.sorted_nil
    | some dmax => exact List.sorted_insertionSort snapDescLe _

/-- The latest-date snapshot rows of the ranking example: members 1 (A,
sharpe 1.2), 2 (B, null) and 3 (C, 0.5) on date 10, plus a stale date-9 row
that the query must exclude. -/
def exSnapA : SnapRow ℚ := ⟨1, 10, some (12/10), none, 3, none, none, none, none, none, none, none, none⟩

def exSnapB : SnapRow ℚ := ⟨2, 10, none, none, 1, none, none, none, none, none, none, none, none⟩

def exSnapC : SnapRow ℚ := ⟨3, 10, some (1/2), none, 2, none, none, none, none, none, none, none, none⟩

def exSnapOld : SnapRow ℚ := ⟨1, 9, some 9, none, 3, none, none, none, none, none, none, none, none⟩

/-- C6 witness: on the store holding A (1.2), B (null), C (0.5) at the
latest date 10 and a stale date-9 row, the query returns exactly [A, C, B],
and by the theorem every returned row carries the maximum date. -/
theorem c6_latest_ranking_witness :
    get_latest_sharpe_all_members [exSnapB, exSnapOld, exSnapA, exSnapC] =
      [exSnapA, exSnapC, exSnapB] ∧
    (([exSnapB, exSnapOld, exSnapA, exSnapC].map (fun r => r.snapshot_date)).max?
      = some exSnapA.snapshot_date) := by
  constructor
  · norm_num [get_latest_sharpe_all_members, exSnapA, exSnapB, exSnapC, exSnapOld,
      List.filter, List.insertionSort, List.orderedInsert, snapDescLe, sqliteDescLe,
      sqliteDescLeB, List.max?]
  · refine (c6_latest_ranking [exSnapB, exSnapOld, exSnapA, exSnapC]).1 exSnapA ?_
    norm_num [get_latest_sharpe_all_members, exSnapA, exSnapB, exSnapC, exSnapOld,
      List.filter, List.insertionSort, List.orderedInsert, snapDescLe, sqliteDescLe,
      sqliteDescLeB, List.max?]

/-- One row of the `price_cache` table (schema in `db.py` lines 74-81, with
`UNIQUE(ticker, price_date)`). -/
structure CacheRow where
  ticker : String
  price_date : Nat
  close_price : ℚ
deriving DecidableEq, Repr

/-- One `INSERT OR REPLACE INTO price_cache` statement of `db.cache_prices`
(lines 384-387): SQLite `REPLACE` deletes any row conflicting on
`(ticker, price_date)` and inserts the new row. -/
def insertOrReplacePrice (db : List CacheRow) (t : String) (d : Nat) (p : ℚ) :
    List CacheRow :=
  db.filter (fun r => !(r.ticker == t && r.price_date == d)) ++ [⟨t, d, p⟩]

/-- `db.cache_prices` (lines 377-393): folds `INSERT OR REPLACE` over the
supplied `{date: price}` mapping (modelled as an association list in
iteration order) and counts every executed statement as added. -/
def cache_prices (db : List CacheRow) (t : String) (prices : List (Nat × ℚ)) :
    List CacheRow × Nat :=
  prices.foldl (fun st dp => (insertOrReplacePrice st.1 t dp.1 dp.2, st.2 + 1))
    (db, 0)

/-- Cached closing price for a (ticker, date) key. -/
def lookupPrice (db : List CacheRow) (t : String) (d : Nat) : Option ℚ :=
  (db.find? (fun r => r.ticker == t && r.price_date == d)).map
    (fun r => r.close_price)

/-- C8 counterexample: with 100 cached for (ABC, day 2), writing price 200
for the same key through `cache_prices` changes the stored closing price to
200 — the cache-write operation does overwrite existing (ticker, date)
keys, refuting immutability of cached points. -/
theorem c8_cache_overwrite_counterexample :
    lookupPrice (cache_prices [⟨"ABC", 2, 100⟩] "ABC" [(2, 200)]).1 "ABC" 2 =
      some 200 ∧
    lookupPrice [⟨"ABC", 2, 100⟩] "ABC" 2 = some 100 ∧
    (some (200:ℚ) ≠ some (100:ℚ)) := by
  refine ⟨by decide, by decide, by decide⟩

theorem find?_filter_of_imp (p q : α → Bool) (l : List α)
    (h : ∀ a, p a = true → q a = true) :
    (l.filter q).find? p = l.find? p := by
  induction l with
  | nil => rfl
  | cons a l ih =>
    by_cases hq : q a = true
    · by_cases hp : p a = true <;>
        simp [List.filter_cons, List.find?_cons, hq, hp, ih]
    · have hp : p a = false := by
        cases hpa : p a
        · rfl
        · exact absurd (h a hpa) hq
      simp [List.filter_cons, List.find?_cons, hq, hp, ih]

theorem lookupPrice_insertOrReplace_self (db : List CacheRow) (t : String)
    (d : Nat) (p : ℚ) :
    lookupPrice (insertOrReplacePrice db t d p) t d = some p := by
  unfold lookupPrice insertOrReplacePrice
  rw [List.find?_append]
  have hnone : (db.filter
      (fun r => !(r.ticker == t && r.price_date == d))).find?
      (fun r => r.ticker == t && r.price_date == d) = none := by
    rw [List.find?_eq_none]
    intro s hs hps
    have := List.of_mem_filter hs
    rw [hps] at this
    simp at this
  rw [hnone]
  simp

theorem lookupPrice_insertOrReplace_other (db : List CacheRow) (t : String)
    (d d2 : Nat) (p : ℚ) (hd : d2 ≠ d) (t2 : String) :
    lookupPrice (insertOrReplacePrice db t d p) t2 d2 = lookupPrice db t2 d2 := by
  unfold lookupPrice insertOrReplacePrice
  rw [List.find?_append]
  rw [find?_filter_of_imp _ _ db ?himp]
  case himp =>
    intro a ha
    have ha2 : a.ticker = t2 ∧ a.price_date = d2 := by simpa using ha
    simp [ha2.2, hd]
  cases hfound : db.find? (fun r => r.ticker == t2 && r.price_date == d2) with
  | some r => simp
  | none =>
    simp only [Option.or_none, Option.none_or]
    have : ((⟨t, d, p⟩ : CacheRow).ticker == t2 &&
        (⟨t, d, p⟩ : CacheRow).price_date == d2) = false := by
      simp
      intro _
      exact fun h => hd h.symm
    simp [List.find?_cons, this]

theorem key_mem_insertOrReplace (db : List CacheRow) (t : String) (d : Nat)
    (p : ℚ) (r : CacheRow) (hr : r ∈ db) :
    ∃ s ∈ insertOrReplacePrice db t d p,
      s.ticker = r.ticker ∧ s.price_date = r.price_date := by
  unfold insertOrReplacePrice
  by_cases hk : (r.ticker == t && r.price_date == d) = true
  · have hk2 : r.ticker = t ∧ r.price_date = d := by simpa using hk
    exact ⟨⟨t, d, p⟩, List.mem_append_right _ (by simp), hk2.1.symm, hk2.2.symm⟩
  · refine ⟨r, List.mem_append_left _ ?_, rfl, rfl⟩
    exact List.mem_filter.mpr ⟨hr, by simp [hk]⟩

theorem c8_helper_fold_keys (t : String) :
    ∀ (prices : List (Nat × ℚ)) (db : List CacheRow) (n : Nat) (r : CacheRow),
      r ∈ db → ∃ s ∈ (prices.foldl
          (fun st dp => (insertOrReplacePrice st.1 t dp.1 dp.2, st.2 + 1))
          (db, n)).1,
        s.ticker = r.ticker ∧ s.price_date = r.price_date := by
  intro prices
  induction prices with
  | nil => intro db n r hr; exact ⟨r, hr, rfl, rfl⟩
  | cons dp rest ih =>
    intro db n r hr
    obtain ⟨s, hs, hst, hsd⟩ := key_mem_insertOrReplace db t dp.1 dp.2 r hr
    obtain ⟨s2, hs2, hst2, hsd2⟩ := ih (insertOrReplacePrice db t dp.1 dp.2) (n + 1) s hs
    exact ⟨s2, hs2, hst2.trans hst, hsd2.trans hsd⟩

theorem c8_helper_fold_lookup (t : String) :
    ∀ (suf : List (Nat × ℚ)) (db : List CacheRow) (n : Nat) (d : Nat),
      d ∉ suf.map Prod.fst →
      lookupPrice (suf.foldl
          (fun st dp => (insertOrReplacePrice st.1 t dp.1 dp.2, st.2 + 1))
          (db, n)).1 t d = lookupPrice db t d := by
  intro suf
  induction suf with
  | nil => intro db n d _; rfl
  | cons dp rest ih =>
    intro db n d hd
    have hd1 : d ≠ dp.1 := by
      intro h
      exact hd (by rw [h]; exact List.mem_map_of_mem Prod.fst (List.mem_cons_self dp rest))
    have hd2 : d ∉ rest.map Prod.fst := by
      intro h
      exact hd (List.mem_cons_of_mem _ h)
    rw [List.foldl_cons, ih (insertOrReplacePrice db t dp.1 dp.2) (n + 1) d hd2]
    exact lookupPrice_insertOrReplace_other db t dp.1 d dp.2 hd1 t

/-- C8 amended: the price-cache write upserts each supplied point: it never
deletes a (ticker, date) key (every previously present key is still
present), a written date whose last occurrence in the batch carries price
`p` reads back as `p` — overwriting any previously stored price for that
key — dates of the same ticker not in the batch keep their stored price,
and the returned count is the number of statements executed. -/
theorem c8_cache_prices_amended (db : List CacheRow) (t : String)
    (prices : List (Nat × ℚ)) :
    (∀ r ∈ db, ∃ s ∈ (cache_prices db t prices).1,
        s.ticker = r.ticker ∧ s.price_date = r.price_date) ∧
    (∀ (pre suf : List (Nat × ℚ)) (d : Nat) (p : ℚ),
        prices = pre ++ (d, p) :: suf → d ∉ suf.map Prod.fst →
        lookupPrice (cache_prices db t prices).1 t d = some p) ∧
    (∀ d : Nat, d ∉ prices.map Prod.fst →
        lookupPrice (cache_prices db t prices).1 t d = lookupPrice db t d) ∧
    (cache_prices db t prices).2 = prices.length := by
  refine ⟨?_, ?_, ?_, ?_⟩
  · intro r hr
    exact c8_helper_fold_keys t prices db 0 r hr
  · intro pre suf d p hsplit hd
    unfold cache_prices
    rw [hsplit, List.foldl_append, List.foldl_cons]
    obtain ⟨dbmid, nmid, hmid⟩ :
        ∃ dbmid nmid, pre.foldl
          (fun st dp => (insertOrReplacePrice st.1 t dp.1 dp.2, st.2 + 1))
          (db, 0) = (dbmid, nmid) := ⟨_, _, rfl⟩
    rw [hmid]
    rw [c8_helper_fold_lookup t suf _ _ d hd]
    exact lookupPrice_insertOrReplace_self dbmid t d p
  · intro d hd
    exact c8_helper_fold_lookup t prices db 0 d hd
  · unfold cache_prices
    have hgen : ∀ (l : List (Nat × ℚ)) (db0 : List CacheRow) (n : Nat),
        (l.foldl (fun st dp => (insertOrReplacePrice st.1 t dp.1 dp.2, st.2 + 1))
          (db0, n)).2 = n + l.length := by
      intro l
      induction l with
      | nil => intro db0 n; simp
      | cons dp rest ih =>
        intro db0 n
        rw [List.foldl_cons, ih]
        simp only [List.length_cons]
        omega
    simpa using hgen prices db 0

/-- C8 amended witness: writing 200 then 300 for day 2 over an existing 100
leaves one point reading 300, the untouched day 3 point keeps price 7, and
the key (ABC, 2) is still present. -/
theorem c8_cache_prices_amended_witness :
    lookupPrice (cache_prices [⟨"ABC", 2, 100⟩, ⟨"ABC", 3, 7⟩] "ABC"
      [(2, 200), (2, 300)]).1 "ABC" 2 = some 300 ∧
    lookupPrice (cache_prices [⟨"ABC", 2, 100⟩, ⟨"ABC", 3, 7⟩] "ABC"
      [(2, 200), (2, 300)]).1 "ABC" 3 = some 7 ∧
    (∃ s ∈ (cache_prices [⟨"ABC", 2, 100⟩, ⟨"ABC", 3, 7⟩] "ABC"
      [(2, 200), (2, 300)]).1, s.ticker = "ABC" ∧ s.price_date = 2) ∧
    (cache_prices [⟨"ABC", 2, 100⟩, ⟨"ABC", 3, 7⟩] "ABC"
      [(2, 200), (2, 300)]).2 = 2 := by
  obtain ⟨hkeys, hover, hframe, hcount⟩ :=
    c8_cache_prices_amended [⟨"ABC", 2, 100⟩, ⟨"ABC", 3, 7⟩] "ABC"
      [(2, 200), (2, 300)]
  refine ⟨?_, ?_, ?_, hcount⟩
  · exact hover [(2, 200)] [] 2 300 rfl (by decide)
  · exact hframe 3 (by decide)
  · exact hkeys ⟨"ABC", 2, 100⟩ (by decide)

/-- A trade row as selected by `analysis.get_trades_for_analysis`: non-null
non-empty ticker and transaction type `purchase` or `sale`, joined with
member identity. -/
structure Trade where
  trade_id : Nat
  member_id : Nat
  member_name : String
  chamber : String
  party : String
  ticker : String
  transaction_date : Nat
  transaction_type : String
deriving DecidableEq, Repr

/-- A row of the in-memory `results` DataFrame built by
`analysis.calculate_and_store_returns` (lines 203-213), the input of the
Sharpe aggregation. -/
structure RetRecord where
  trade_id : Nat
  member_id : Nat
  member_name : String
  chamber : String
  party : String
  ticker : String
  transaction_type : String
  return_30d : Option ℚ
  return_current : Option ℚ
deriving DecidableEq, Repr

/-- One iteration of the loop of `analysis.calculate_and_store_returns`
(lines 143-216) on the trade-returns store: a missing or empty price
series, a series with no date on or after the transaction date, and (in
this total embedding) any failed per-trade computation all yield the
skip outcome — store unchanged, no result row — corresponding to the
`continue` statements and the per-trade `except` clause; otherwise the
computed record is upserted (with `return_current_date = today`) and a
result row emitted. -/
def processTrade (prices : String → Option (List PricePoint)) (now : Nat)
    (db : List TRRow) (t : Trade) : List TRRow × Option RetRecord :=
  match prices t.ticker with
  | none => (db, none)
  | some series =>
    if series.isEmpty then (db, none)
    else
      match computeTradeReturn series t.transaction_date t.transaction_type with
      | none => (db, none)
      | some c =>
        (upsert_trade_return db
          ⟨t.trade_id, c.entry_date, c.entry_price, c.return_30d, c.return_30d_date,
           c.return_current, some now⟩ now,
         some ⟨t.trade_id, t.member_id, t.member_name, t.chamber, t.party,
               t.ticker, t.transaction_type, c.return_30d, c.return_current⟩)

/-- `analysis.calculate_and_store_returns`: folds `processTrade` over the
batch, accumulating the stored state and the emitted result rows. -/
def calculate_and_store_returns (prices : String → Option (List PricePoint))
    (now : Nat) (trades : List Trade) (db : List TRRow) :
    List TRRow × List RetRecord :=
  trades.foldl
    (fun st t =>
      ((processTrade prices now st.1 t).1,
       st.2 ++ ((processTrade prices now st.1 t).2).toList))
    (db, [])

theorem foldl_skip_middle (prices : String → Option (List PricePoint))
    (now : Nat) (t : Trade)
    (hskip : ∀ db : List TRRow, processTrade prices now db t = (db, none)) :
    ∀ (pre suf : List Trade) (db0 : List TRRow),
      calculate_and_store_returns prices now (pre ++ t :: suf) db0 =
      calculate_and_store_returns prices now (pre ++ suf) db0 := by
  intro pre suf db0
  unfold calculate_and_store_returns
  rw [List.foldl_append, List.foldl_append, List.foldl_cons]
  obtain ⟨dbmid, accmid, hmid⟩ :
      ∃ dbmid accmid, pre.foldl
        (fun st t =>
          ((processTrade prices now st.1 t).1,
           st.2 ++ ((processTrade prices now st.1 t).2).toList))
        (db0, []) = (dbmid, accmid) := ⟨_, _, rfl⟩
  rw [hmid]
  rw [hskip dbmid]
  simp

/-- C7: a trade whose price series holds no date on or after the transaction
date is skipped: the trade-returns store — including any record a prior run
wrote for it — is left exactly as it was and no result row is emitted; and
any trade with the skip outcome (the embedding of the `continue` paths and
of the caught per-trade exception) leaves the whole batch's stores and
results identical to the batch without that trade, so one bad trade never
aborts the rest. -/
theorem c7_skip_semantics (prices : String → Option (List PricePoint))
    (now : Nat) (t : Trade) :
    (∀ (series : List PricePoint), prices t.ticker = some series →
      (∀ q ∈ series, q.pdate < t.transaction_date) →
      ∀ db : List TRRow, processTrade prices now db t = (db, none)) ∧
    ((∀ db : List TRRow, processTrade prices now db t = (db, none)) →
      ∀ (pre suf : List Trade) (db0 : List TRRow),
        calculate_and_store_returns prices now (pre ++ t :: suf) db0 =
        calculate_and_store_returns prices now (pre ++ suf) db0) := by
  constructor
  · intro series hs hlate db
    unfold processTrade
    rw [hs]
    by_cases hempty : series.isEmpty
    · simp [hempty]
    · have hnone : computeTradeReturn series t.transaction_date
          t.transaction_type = none := by
        unfold computeTradeReturn
        have hfilter : series.filter
            (fun p => t.transaction_date ≤ p.pdate) = [] := by
          rw [List.filter_eq_nil_iff]
          intro q hq
          simp only [decide_eq_true_eq]
          exact not_le_of_lt (hlate q hq)
        rw [hfilter]
        rfl
      simp [hempty, hnone]
  · exact fun hskip => foldl_skip_middle prices now t hskip

/-- C7 witness: a batch of a good trade (member 1 buys ABC on day 2) and a
bad trade (member 2 buys XYZ on day 200, after XYZ's series ends) stores
and reports exactly what the batch without the bad trade does, and the bad
trade's skip leaves any prior stored record untouched. -/
theorem c7_skip_semantics_witness :
    (processTrade
        (fun tk => if tk == "XYZ" then some [⟨5, 50⟩] else
          if tk == "ABC" then some exSeries else none)
        400
        [⟨9, 5, 60, some 1, some 6, some 2, some 7, 3⟩]
        ⟨8, 2, "B", "senate", "R", "XYZ", 200, "purchase"⟩ =
      ([⟨9, 5, 60, some 1, some 6, some 2, some 7, 3⟩], none)) ∧
    (calculate_and_store_returns
        (fun tk => if tk == "XYZ" then some [⟨5, 50⟩] else
          if tk == "ABC" then some exSeries else none)
        400
        [⟨7, 1, "A", "house", "D", "ABC", 2, "purchase"⟩,
         ⟨8, 2, "B", "senate", "R", "XYZ", 200, "purchase"⟩] [] =
      calculate_and_store_returns
        (fun tk => if tk == "XYZ" then some [⟨5, 50⟩] else
          if tk == "ABC" then some exSeries else none)
        400
        [⟨7, 1, "A", "house", "D", "ABC", 2, "purchase"⟩] []) := by
  have hskip : ∀ db : List TRRow, processTrade
      (fun tk => if tk == "XYZ" then some [⟨5, 50⟩] else
        if tk == "ABC" then some exSeries else none)
      400 db ⟨8, 2, "B", "senate", "R", "XYZ", 200, "purchase"⟩ = (db, none) := by
    intro db
    exact (c7_skip_semantics _ 400 ⟨8, 2, "B", "senate", "R", "XYZ", 200, "purchase"⟩).1
      [⟨5, 50⟩] rfl (by decide) db
  refine ⟨hskip _, ?_⟩
  exact (c7_skip_semantics _ 400 ⟨8, 2, "B", "senate", "R", "XYZ", 200, "purchase"⟩).2
    hskip [⟨7, 1, "A", "house", "D", "ABC", 2, "purchase"⟩] [] []

/-- `analysis.RISK_FREE_RATE_ANNUAL = 0.045`. -/
def RISK_FREE_RATE_ANNUAL : ℚ := 45 / 1000

/-- `analysis.RISK_FREE_RATE_DAILY = RISK_FREE_RATE_ANNUAL / 252`. -/
def RISK_FREE_RATE_DAILY : ℚ := RISK_FREE_RATE_ANNUAL / 252

/-- Arithmetic mean, as `pandas.Series.mean` on a non-empty series. -/
def listMean (xs : List ℚ) : ℚ := xs.sum / xs.length

/-- Sample variance with the N−1 denominator, the square of
`pandas.Series.std()` (default `ddof=1`). -/
def sampleVar (xs : List ℚ) : ℚ :=
  (xs.map (fun x => (x - listMean xs) ^ 2)).sum / ((xs.length : ℚ) - 1)

/-- Sample standard deviation, `pandas.Series.std()`: the square root of
`sampleVar`, a real number. -/
noncomputable def sampleStd (xs : List ℚ) : ℝ :=
  Real.sqrt ((sampleVar xs : ℚ) : ℝ)

/-- The per-horizon statistics computed by `analysis.calculate_and_store_sharpe`
for one member: all null unless at least two valid returns exist, sharpe
additionally null unless the standard deviation is positive. -/
structure HorizonStats where
  sharpe : Option ℝ
  mean : Option ℚ
  std : Option ℝ
  win_rate : Option ℚ
  total_return : Option ℚ

/-- One horizon of `analysis.calculate_and_store_sharpe` (lines 237-267):
drop the nulls; with fewer than 2 observations every statistic stays null;
otherwise mean, sample std, win rate (fraction strictly positive) and
compounded total return are computed, and sharpe `(mean − rf)/std` only
when `std > 0`. -/
noncomputable def computeHorizonStats (returns : List (Option ℚ)) (rf : ℚ) :
    HorizonStats :=
  let valid := returns.filterMap id
  if 2 ≤ valid.length then
    { sharpe :=
        if 0 < sampleStd valid then
          some (((listMean valid : ℚ) - (rf : ℚ)) / sampleStd valid)
        else none
      mean := some (listMean valid)
      std := some (sampleStd valid)
      win_rate := some ((valid.countP (fun r => 0 < r) : ℚ) / valid.length)
      total_return := some ((valid.map (fun r => 1 + r)).prod - 1) }
  else
    ⟨none, none, none, none, none⟩

/-- The snapshot row one member contributes in
`analysis.calculate_and_store_sharpe` (lines 230-286): the member's rows of
the returns frame feed both horizons — the 30-day one with risk-free rate
`RISK_FREE_RATE_DAILY * 30`, the current one with the flat
`RISK_FREE_RATE_ANNUAL` — and `num_trades = len(member_data)`, the count of
all of the member's return records. -/
noncomputable def memberSnapshot (rows : List RetRecord) (mid : Nat)
    (sdate : Nat) : SnapRow ℝ :=
  let md := rows.filter (fun r => r.member_id == mid)
  let s30 := computeHorizonStats (md.map (fun r => r.return_30d))
    (RISK_FREE_RATE_DAILY * 30)
  let scur := computeHorizonStats (md.map (fun r => r.return_current))
    RISK_FREE_RATE_ANNUAL
  { member_id := mid
    snapshot_date := sdate
    sharpe_30d := s30.sharpe
    sharpe_current := scur.sharpe
    num_trades := md.length
    mean_return_30d := s30.mean.map (fun q => (q : ℝ))
    std_return_30d := s30.std
    mean_return_current := scur.mean.map (fun q => (q : ℝ))
    std_return_current := scur.std
    win_rate_30d := s30.win_rate.map (fun q => (q : ℝ))
    win_rate_current := scur.win_rate.map (fun q => (q : ℝ))
    total_return_30d := s30.total_return.map (fun q => (q : ℝ))
    total_return_current := scur.total_return.map (fun q => (q : ℝ)) }

/-- C2: per member and horizon independently: fewer than 2 non-null returns
leave every derived statistic of the horizon null; at least 2 with zero
sample standard deviation leave sharpe null; at least 2 with nonzero
sample standard deviation give sharpe `(mean − rf)/std` exactly, where the
pipeline instantiates `rf` as the daily risk-free rate times 30 for the
30-day horizon and the flat annual rate for the current horizon. -/
theorem c2_sharpe_guard (returns : List (Option ℚ)) (rf : ℚ) :
    ((returns.filterMap id).length < 2 →
      computeHorizonStats returns rf = ⟨none, none, none, none, none⟩) ∧
    (2 ≤ (returns.filterMap id).length →
      sampleStd (returns.filterMap id) = 0 →
      (computeHorizonStats returns rf).sharpe = none) ∧
    (2 ≤ (returns.filterMap id).length →
      sampleStd (returns.filterMap id) ≠ 0 →
      (computeHorizonStats returns rf).sharpe =
        some (((listMean (returns.filterMap id) : ℚ) - (rf : ℚ)) /
          sampleStd (returns.filterMap id))) ∧
    (∀ (rows : List RetRecord) (mid sdate : Nat),
      (memberSnapshot rows mid sdate).sharpe_30d =
        (computeHorizonStats
          ((rows.filter (fun r => r.member_id == mid)).map (fun r => r.return_30d))
          (RISK_FREE_RATE_DAILY * 30)).sharpe) ∧
    (∀ (rows : List RetRecord) (mid sdate : Nat),
      (memberSnapshot rows mid sdate).sharpe_current =
        (computeHorizonStats
          ((rows.filter (fun r => r.member_id == mid)).map (fun r => r.return_current))
          RISK_FREE_RATE_ANNUAL).sharpe) := by
  refine ⟨?_, ?_, ?_, fun rows mid sdate => rfl, fun rows mid sdate => rfl⟩
  · intro hlt
    unfold computeHorizonStats
    rw [if_neg (by omega)]
  · intro hge hstd
    unfold computeHorizonStats
    rw [if_pos hge]
    simp only
    rw [if_neg (by rw [hstd]; exact lt_irrefl 0)]
  · intro hge hstd
    have hpos : 0 < sampleStd (returns.filterMap id) :=
      lt_of_le_of_ne (Real.sqrt_nonneg _) (Ne.symm hstd)
    unfold computeHorizonStats
    rw [if_pos hge]
    simp only
    rw [if_pos hpos]

/-- C2 witness: with exactly one return every statistic of the horizon is
null; two identical returns (std 0) give a null sharpe; the three returns
3, 5, −8 have mean 0 and sample standard deviation 7, so the current-horizon
sharpe is exactly `(0 − 0.045)/7`. -/
theorem c2_sharpe_guard_witness :
    computeHorizonStats [some 3] (RISK_FREE_RATE_DAILY * 30) =
      ⟨none, none, none, none, none⟩ ∧
    (computeHorizonStats [some 3, some 3] (RISK_FREE_RATE_DAILY * 30)).sharpe
      = none ∧
    (computeHorizonStats [some 3, some 5, some (-8)] RISK_FREE_RATE_ANNUAL).sharpe
      = some ((0 - (RISK_FREE_RATE_ANNUAL : ℝ)) / 7) := by
  have hfm2 : (([some 3, some 3] : List (Option ℚ)).filterMap id) = [3, 3] := by
    simp
  have hfm3 : (([some 3, some 5, some (-8)] : List (Option ℚ)).filterMap id) =
      [3, 5, -8] := by simp
  have hvar2 : sampleVar [3, 3] = 0 := by
    norm_num [sampleVar, listMean]
  have hstd2 : sampleStd [3, 3] = 0 := by
    unfold sampleStd
    rw [hvar2]
    simpa using Real.sqrt_zero
  have hvar3 : sampleVar [3, 5, -8] = 49 := by
    norm_num [sampleVar, listMean]
  have hstd3 : sampleStd [3, 5, -8] = 7 := by
    unfold sampleStd
    rw [hvar3]
    rw [show ((49 : ℚ) : ℝ) = (7 : ℝ) ^ 2 by norm_num]
    exact Real.sqrt_sq (by norm_num)
  have hmean3 : listMean [3, 5, -8] = 0 := by
    norm_num [listMean]
  refine ⟨?_, ?_, ?_⟩
  · exact (c2_sharpe_guard [some 3] (RISK_FREE_RATE_DAILY * 30)).1 (by simp)
  · refine (c2_sharpe_guard [some 3, some 3] (RISK_FREE_RATE_DAILY * 30)).2.1
      (by rw [hfm2]; simp) ?_
    rw [hfm2]
    exact hstd2
  · have h := (c2_sharpe_guard [some 3, some 5, some (-8)]
      RISK_FREE_RATE_ANNUAL).2.2.1 (by rw [hfm3]; simp)
      (by rw [hfm3, hstd3]; norm_num)
    rw [hfm3, hstd3, hmean3] at h
    rw [h]
    norm_num

/-- A return record with a resolved 30-day return, member 1. -/
def exRet1 : RetRecord := ⟨1, 1, "A", "house", "D", "ABC", "purchase", some 3, some 4⟩

/-- A return record of the same member whose 30-day window has not closed
yet: `return_30d` is null while `return_current` is set, exactly what
`calculate_and_store_returns` produces for a recent trade. -/
def exRet2 : RetRecord := ⟨2, 1, "A", "house", "D", "XYZ", "purchase", none, some 5⟩

/-- C9 counterexample: member 1 has two return records, one with a null
30-day return, so the snapshot records `num_trades = 2` while the 30-day
horizon considered only 1 return — the recorded count does not equal the
per-horizon count of considered returns. -/
theorem c9_num_trades_counterexample :
    (memberSnapshot [exRet1, exRet2] 1 10).num_trades = 2 ∧
    ((([exRet1, exRet2].filter (fun r => r.member_id == 1)).map
        (fun r => r.return_30d)).filterMap id).length = 1 ∧
    (2 : Nat) ≠ 1 := by
  refine ⟨rfl, by decide, by decide⟩

theorem computeTradeReturn_current_isSome (series : List PricePoint)
    (d : Nat) (tx : String) (c : TradeCalc)
    (h : computeTradeReturn series d tx = some c) :
    c.return_current.isSome := by
  unfold computeTradeReturn at h
  cases hh : (series.filter (fun p => d ≤ p.pdate)).head? with
  | none => rw [hh] at h; exact absurd h (by simp)
  | some entryPt =>
    rw [hh] at h
    have hne : series ≠ [] := by
      intro hs
      rw [hs] at hh
      simp at hh
    obtain ⟨lastP, hlastP⟩ :=
      Option.isSome_iff_exists.mp (List.getLast?_isSome.mpr hne)
    simp only [hlastP] at h
    by_cases htx : (tx == "sale") = true <;> simp only [htx] at h <;>
      simp only [if_true, if_false, Bool.false_eq_true] at h <;>
      rw [← Option.some.inj h] <;> simp

theorem processTrade_rec_current_isSome
    (prices : String → Option (List PricePoint)) (now : Nat)
    (db : List TRRow) (t : Trade) (r : RetRecord)
    (h : (processTrade prices now db t).2 = some r) :
    r.return_current.isSome := by
  unfold processTrade at h
  cases hp : prices t.ticker with
  | none => rw [hp] at h; simp at h
  | some series =>
    rw [hp] at h
    by_cases he : series.isEmpty <;> simp only [he, if_true, if_false] at h
    · simp at h
    · cases hc : computeTradeReturn series t.transaction_date
          t.transaction_type with
      | none => rw [hc] at h; simp at h
      | some c =>
        rw [hc] at h
        simp only at h
        have hr : r.return_current = c.return_current := by
          rw [← Option.some.inj h]
        rw [hr]
        exact computeTradeReturn_current_isSome series t.transaction_date
          t.transaction_type c hc

theorem calc_returns_all_current_isSome
    (prices : String → Option (List PricePoint)) (now : Nat) :
    ∀ (trades : List Trade) (db : List TRRow) (acc : List RetRecord),
      (∀ rec ∈ acc, rec.return_current.isSome) →
      ∀ rec ∈ (trades.foldl
          (fun st t =>
            ((processTrade prices now st.1 t).1,
             st.2 ++ ((processTrade prices now st.1 t).2).toList))
          (db, acc)).2,
        rec.return_current.isSome := by
  intro trades
  induction trades with
  | nil => intro db acc hacc rec hrec; exact hacc rec hrec
  | cons t rest ih =>
    intro db acc hacc rec hrec
    rw [List.foldl_cons] at hrec
    refine ih _ _ ?_ rec hrec
    intro rec2 hrec2
    rcases List.mem_append.mp hrec2 with hm | hm
    · exact hacc rec2 hm
    · cases hopt : (processTrade prices now db t).2 with
      | none => rw [hopt] at hm; simp at hm
      | some r =>
        rw [hopt] at hm
        have : rec2 = r := by simpa using hm
        rw [this]
        exact processTrade_rec_current_isSome prices now db t r hopt

/-- C9 amended: the `num_trades` recorded in a member's snapshot is the
count of all of that member's return records (`len(member_data)`), recorded
whatever the sharpe values are; since every record the return pipeline
emits carries a non-null current return, this equals the current horizon's
considered-return count, but not in general the 30-day horizon's. -/
theorem c9_num_trades_amended :
    (∀ (rows : List RetRecord) (mid sdate : Nat),
      (memberSnapshot rows mid sdate).num_trades =
        (rows.filter (fun r => r.member_id == mid)).length) ∧
    (∀ (prices : String → Option (List PricePoint)) (now : Nat)
        (trades : List Trade) (db : List TRRow),
      ∀ rec ∈ (calculate_and_store_returns prices now trades db).2,
        rec.return_current.isSome) := by
  constructor
  · intro rows mid sdate
    rfl
  · intro prices now trades db rec hrec
    exact calc_returns_all_current_isSome prices now trades db []
      (by intro rec2 hrec2; simp at hrec2) rec hrec

/-- C9 amended witness: for member 1's two records (one null 30-day return)
the snapshot records `num_trades = 2`, and the single record produced by a
one-trade pipeline run carries a non-null current return. -/
theorem c9_num_trades_amended_witness :
    (memberSnapshot [exRet1, exRet2] 1 10).num_trades =
      ([exRet1, exRet2].filter (fun r => r.member_id == 1)).length ∧
    (⟨7, 1, "A", "house", "D", "ABC", "purchase", some (1/10),
        some (3/10)⟩ : RetRecord).return_current.isSome := by
  have heval : (calculate_and_store_returns (fun _ => some exSeries) 400
      [⟨7, 1, "A", "house", "D", "ABC", 2, "purchase"⟩] []).2 =
      [⟨7, 1, "A", "house", "D", "ABC", "purchase", some (1/10), some (3/10)⟩] := by
    norm_num [calculate_and_store_returns, processTrade, computeTradeReturn,
      exSeries, List.filter, upsert_trade_return, freshRow]
    rw [if_neg (show ¬ "purchase" = "sale" by decide)]
    rfl
  refine ⟨c9_num_trades_amended.1 [exRet1, exRet2] 1 10, ?_⟩
  refine c9_num_trades_amended.2 (fun _ => some exSeries) 400
    [⟨7, 1, "A", "house", "D", "ABC", 2, "purchase"⟩] [] _ ?_
  rw [heval]
  exact List.mem_singleton_self _

end CongressTrades
